import Mathlib

/-!
Verification of the django-safedelete manager layer.

The development shallowly embeds `safedelete/managers.py` together with the
parts of the package it refers to.  Pure structure (manager attributes,
queryset attributes, the `update_or_create` revival step) is translated
directly from `managers.py`.  The visibility constants of `config.py`, the
row filtering of `queryset.py` and the model mixin of `models.py` are not
part of the sources at hand; those are modelled from the specification and
are marked as such in their doc comments.

A database table is a list of rows; each row carries a primary key, the
nullable `deleted` timestamp marker and the value of one (unique) field.
Lookup kwargs are modelled as a boolean predicate on rows.
-/

/-- Modelled from the spec: the visibility constants of `config.py`
(`DELETED_INVISIBLE`, `DELETED_VISIBLE_BY_PK`, `DELETED_VISIBLE`,
`DELETED_ONLY_VISIBLE`), imported by `managers.py`; `config.py` is not among
the sources. -/
inductive Visibility where
  | DELETED_INVISIBLE
  | DELETED_VISIBLE_BY_PK
  | DELETED_VISIBLE
  | DELETED_ONLY_VISIBLE
deriving DecidableEq

/-- Modelled from the spec: the delete-policy constants of `config.py`
(`NO_DELETE`, `SOFT_DELETE`, `SOFT_DELETE_CASCADE`, `HARD_DELETE`,
`HARD_DELETE_NOCASCADE`); `config.py` is not among the sources. -/
inductive DeletePolicy where
  | NO_DELETE
  | SOFT_DELETE
  | SOFT_DELETE_CASCADE
  | HARD_DELETE
  | HARD_DELETE_NOCASCADE
deriving DecidableEq

/-- A database row: primary key, the nullable `deleted` timestamp marker
(`none` = alive, `some t` = soft-deleted at time `t`), and the value of one
model field (the one a unique constraint may apply to). -/
structure Row where
  pk : Nat
  deleted : Option Nat
  val : Nat
deriving DecidableEq

/-- The per-model-class configuration that `update_or_create` consults:
`self.model.get_delete_policy()` and `self.model.has_unique_fields(...)`. -/
structure ModelClass where
  delete_policy : DeletePolicy
  has_unique_fields : Bool
deriving DecidableEq

/-- `SafeDeleteManager`: class attributes `_safedelete_visibility`
(defaults to `DELETED_INVISIBLE`) and `_safedelete_visibility_field`
(defaults to `'pk'`), from `managers.py` lines 36-37. -/
structure SafeDeleteManager where
  _safedelete_visibility : Visibility := Visibility.DELETED_INVISIBLE
  _safedelete_visibility_field : String := "pk"
deriving DecidableEq

/-- `SafeDeleteQueryset` as configured by the manager: the two copied
attributes plus the optional `_safedelete_force_visibility` that
`SafeDeleteManager.all` may set. -/
structure SafeDeleteQueryset where
  _safedelete_visibility : Visibility
  _safedelete_visibility_field : String
  _safedelete_force_visibility : Option Visibility := none
deriving DecidableEq

namespace SafeDeleteManager

/-- `SafeDeleteManager.get_queryset` (managers.py lines 57-62): builds a
queryset and copies `_safedelete_visibility` and
`_safedelete_visibility_field` onto it. -/
def get_queryset (m : SafeDeleteManager) : SafeDeleteQueryset :=
  { _safedelete_visibility := m._safedelete_visibility
    _safedelete_visibility_field := m._safedelete_visibility_field
    _safedelete_force_visibility := none }

/-- `SafeDeleteManager.all` (managers.py lines 86-102): pops
`force_visibility` from the kwargs (here an explicit optional argument),
takes `get_queryset()` and, when a force visibility was given, sets
`_safedelete_force_visibility` on the queryset. -/
def all (m : SafeDeleteManager) (force_visibility : Option Visibility) :
    SafeDeleteQueryset :=
  let qs := m.get_queryset
  match force_visibility with
  | some v => { qs with _safedelete_force_visibility := some v }
  | none => qs

/-- `SafeDeleteManager.all_with_deleted` (managers.py lines 64-73):
`self.all(force_visibility=DELETED_VISIBLE)`. -/
def all_with_deleted (m : SafeDeleteManager) : SafeDeleteQueryset :=
  m.all (some Visibility.DELETED_VISIBLE)

/-- `SafeDeleteManager.deleted_only` (managers.py lines 75-84):
`self.all(force_visibility=DELETED_ONLY_VISIBLE)`. -/
def deleted_only (m : SafeDeleteManager) : SafeDeleteQueryset :=
  m.all (some Visibility.DELETED_ONLY_VISIBLE)

/-- `SafeDeleteManager.get_soft_delete_policies` (managers.py lines
126-129): the list `[SOFT_DELETE, SOFT_DELETE_CASCADE]`. -/
def get_soft_delete_policies : List DeletePolicy :=
  [DeletePolicy.SOFT_DELETE, DeletePolicy.SOFT_DELETE_CASCADE]

end SafeDeleteManager

/-- `SafeDeleteAllManager` (managers.py lines 132-139): a
`SafeDeleteManager` with `_safedelete_visibility = DELETED_VISIBLE`. -/
def SafeDeleteAllManager : SafeDeleteManager :=
  { _safedelete_visibility := Visibility.DELETED_VISIBLE }

/-- `SafeDeleteDeletedManager` (managers.py lines 142-149): a
`SafeDeleteManager` with `_safedelete_visibility = DELETED_ONLY_VISIBLE`. -/
def SafeDeleteDeletedManager : SafeDeleteManager :=
  { _safedelete_visibility := Visibility.DELETED_ONLY_VISIBLE }

/-- The visibility that governs a queryset: the forced visibility when one
was set by `all_with_deleted`/`deleted_only`, otherwise the queryset's own
`_safedelete_visibility`.  Modelled from the spec: the filtering lives in
`queryset.py`, which is not among the sources; the spec says rows are
filtered "by DeletedMarker according to VisibilityMode, unless explicitly
forced visible". -/
def effective_visibility (qs : SafeDeleteQueryset) : Visibility :=
  match qs._safedelete_force_visibility with
  | some v => v
  | none => qs._safedelete_visibility

/-- Modelled from the spec: whether one row passes the visibility filter of
`queryset.py` (not among the sources).  `by_pk` records whether the query
looks the row up by the visibility field (primary key), which is the one
case where `DELETED_VISIBLE_BY_PK` shows a soft-deleted row. -/
def row_visible (v : Visibility) (by_pk : Bool) (r : Row) : Bool :=
  match v with
  | Visibility.DELETED_INVISIBLE => r.deleted == none
  | Visibility.DELETED_VISIBLE_BY_PK => r.deleted == none || by_pk
  | Visibility.DELETED_VISIBLE => true
  | Visibility.DELETED_ONLY_VISIBLE => r.deleted != none

/-- Modelled from the spec: the result rows of evaluating a queryset over a
database table — the rows that pass the visibility filter (`queryset.py` is
not among the sources). -/
def qs_results (qs : SafeDeleteQueryset) (by_pk : Bool) (db : List Row) :
    List Row :=
  db.filter (row_visible (effective_visibility qs) by_pk)

example :
    qs_results (SafeDeleteManager.get_queryset {}) false
      [⟨1, none, 10⟩, ⟨2, some 5, 20⟩] = [⟨1, none, 10⟩] := by decide

example :
    qs_results (SafeDeleteManager.all_with_deleted {}) false
      [⟨1, none, 10⟩, ⟨2, some 5, 20⟩] =
      [⟨1, none, 10⟩, ⟨2, some 5, 20⟩] := by decide

/-- `obj.save()`: write the in-memory object back to its database row,
identified by primary key. -/
def save_row (obj : Row) (db : List Row) : List Row :=
  db.map (fun x => if x.pk == obj.pk then obj else x)

namespace SafeDeleteManager

/-- The lookup of managers.py line 116:
`self.all_with_deleted().filter(**kwargs).exclude(deleted=None).first()`.
The `kwargs` predicate embeds the lookup keyword arguments. -/
def find_soft_deleted (m : SafeDeleteManager) (kwargs : Row → Bool)
    (db : List Row) : Option Row :=
  (((qs_results m.all_with_deleted false db).filter kwargs).filter
    (fun r => r.deleted != none)).head?

/-- The soft-delete revival step of `SafeDeleteManager.update_or_create`
(managers.py lines 111-121): when the model's delete policy is a soft-delete
policy and the model has unique fields, look for
`all_with_deleted().filter(**kwargs).exclude(deleted=None).first()`; if such
a soft-deleted object exists, set its `deleted` marker to `None` and save
it. -/
def update_or_create_pre (m : SafeDeleteManager) (model : ModelClass)
    (kwargs : Row → Bool) (db : List Row) : List Row :=
  if get_soft_delete_policies.contains model.delete_policy &&
      model.has_unique_fields then
    match m.find_soft_deleted kwargs db with
    | some deleted_object => save_row { deleted_object with deleted := none } db
    | none => db
  else db

/-- `SafeDeleteManager.update_or_create` (managers.py lines 104-124): the
revival step above, then the standard `update_or_create` of the base
manager, embedded as the opaque parameter `base` (it belongs to the host
ORM, not to this package). -/
def update_or_create (base : List Row → List Row × Row)
    (m : SafeDeleteManager) (model : ModelClass) (kwargs : Row → Bool)
    (db : List Row) : List Row × Row :=
  base (m.update_or_create_pre model kwargs db)

end SafeDeleteManager

/-- Modelled from the spec: the policy-violation error that the model
mixin's `delete()` raises for `NO_DELETE`, and the validation error of
uniqueness checking (`models.py` is not among the sources). -/
inductive SafeDeleteError where
  | policy_violation
  | validation_error
deriving DecidableEq

/-- Modelled from the spec: the model mixin's `delete()` (`models.py` is not
among the sources).  It dispatches on the delete policy: `NO_DELETE` fails
with a policy-violation error; the hard-delete policies remove the row; the
soft-delete policies write the timestamp `now` into the `deleted` marker of
the instance's row.  Cascading to dependents is outside this table-level
model. -/
def instance_delete (policy : DeletePolicy) (obj : Row) (now : Nat)
    (db : List Row) : Except SafeDeleteError (List Row) :=
  match policy with
  | DeletePolicy.NO_DELETE => Except.error SafeDeleteError.policy_violation
  | DeletePolicy.HARD_DELETE =>
      Except.ok (db.filter (fun x => x.pk != obj.pk))
  | DeletePolicy.HARD_DELETE_NOCASCADE =>
      Except.ok (db.filter (fun x => x.pk != obj.pk))
  | DeletePolicy.SOFT_DELETE =>
      Except.ok (save_row { obj with deleted := some now } db)
  | DeletePolicy.SOFT_DELETE_CASCADE =>
      Except.ok (save_row { obj with deleted := some now } db)

/-- Modelled from the spec: the model mixin's `undelete()` (`models.py` is
not among the sources) — "undelete() clears the marker". -/
def instance_undelete (obj : Row) (db : List Row) : List Row :=
  save_row { obj with deleted := none } db

/-- Modelled from the spec: uniqueness validation (`models.py` is not among
the sources) — "Uniqueness validation must consider soft-deleted rows", so
the new value is checked against every row of the table, soft-deleted rows
included. -/
def validate_unique (new_val : Nat) (db : List Row) :
    Except SafeDeleteError Unit :=
  if db.any (fun r => r.val == new_val) then
    Except.error SafeDeleteError.validation_error
  else Except.ok ()

example :
    SafeDeleteManager.update_or_create_pre {}
      ⟨DeletePolicy.SOFT_DELETE, true⟩ (fun r => r.val == 20)
      [⟨1, none, 10⟩, ⟨2, some 5, 20⟩] =
      [⟨1, none, 10⟩, ⟨2, none, 20⟩] := by decide

example :
    SafeDeleteManager.update_or_create_pre {}
      ⟨DeletePolicy.HARD_DELETE, true⟩ (fun r => r.val == 20)
      [⟨1, none, 10⟩, ⟨2, some 5, 20⟩] =
      [⟨1, none, 10⟩, ⟨2, some 5, 20⟩] := by decide

/-! ### Helper lemmas -/

lemma pk_injOn (db : List Row) (hnodup : (db.map Row.pk).Nodup) :
    ∀ x ∈ db, ∀ y ∈ db, x.pk = y.pk → x = y :=
  fun _ hx _ hy h => List.inj_on_of_nodup_map hnodup hx hy h

lemma qs_results_all_with_deleted (m : SafeDeleteManager) (db : List Row) :
    qs_results m.all_with_deleted false db = db := by
  simp [qs_results, effective_visibility, SafeDeleteManager.all_with_deleted,
    SafeDeleteManager.all, SafeDeleteManager.get_queryset, row_visible]

lemma find_soft_deleted_mem {m : SafeDeleteManager} {kwargs : Row → Bool}
    {db : List Row} {d : Row} (h : m.find_soft_deleted kwargs db = some d) :
    d ∈ db ∧ kwargs d = true ∧ d.deleted ≠ none := by
  rw [SafeDeleteManager.find_soft_deleted, qs_results_all_with_deleted] at h
  obtain ⟨ys, hys⟩ := List.head?_eq_some_iff.mp h
  have hd : d ∈ (db.filter kwargs).filter (fun r => r.deleted != none) := by
    rw [hys]; exact List.mem_cons_self _ _
  rw [List.mem_filter, List.mem_filter] at hd
  exact ⟨hd.1.1, hd.1.2, bne_iff_ne.mp hd.2⟩

lemma update_or_create_pre_found {m : SafeDeleteManager} {model : ModelClass}
    {kwargs : Row → Bool} {db : List Row} {d : Row}
    (hnodup : (db.map Row.pk).Nodup)
    (hcond : (SafeDeleteManager.get_soft_delete_policies.contains
      model.delete_policy && model.has_unique_fields) = true)
    (hfind : m.find_soft_deleted kwargs db = some d) :
    m.update_or_create_pre model kwargs db =
      db.map (fun x => if x.pk = d.pk then { x with deleted := none } else x) := by
  unfold SafeDeleteManager.update_or_create_pre
  rw [hcond, if_pos rfl, hfind]
  unfold save_row
  apply List.map_congr_left
  intro x hx
  by_cases h : x.pk = d.pk
  · have hdm := (find_soft_deleted_mem hfind).1
    have hxd : x = d := pk_injOn db hnodup x hx d hdm h
    subst hxd
    simp
  · simp [h]

lemma update_or_create_pre_cond_false {m : SafeDeleteManager}
    {model : ModelClass} {kwargs : Row → Bool} {db : List Row}
    (hcond : (SafeDeleteManager.get_soft_delete_policies.contains
      model.delete_policy && model.has_unique_fields) = false) :
    m.update_or_create_pre model kwargs db = db := by
  unfold SafeDeleteManager.update_or_create_pre
  rw [hcond, if_neg Bool.false_ne_true]

lemma update_or_create_pre_find_none {m : SafeDeleteManager}
    {model : ModelClass} {kwargs : Row → Bool} {db : List Row}
    (hfind : m.find_soft_deleted kwargs db = none) :
    m.update_or_create_pre model kwargs db = db := by
  unfold SafeDeleteManager.update_or_create_pre
  rw [hfind]
  split <;> rfl

/-! ### Claims -/

/-- C2: a soft-deleted record (deleted marker non-null) is excluded from the
results of a default query through the default manager, and included in the
results of a query through `all_with_deleted()`. -/
theorem C2_soft_deleted_default_hidden_all_with_deleted_visible
    (db : List Row) (r : Row) (hr : r ∈ db) (hdel : r.deleted ≠ none) :
    r ∉ qs_results (SafeDeleteManager.get_queryset {}) false db ∧
    r ∈ qs_results (SafeDeleteManager.all_with_deleted {}) false db := by
  constructor
  · intro hmem
    rw [qs_results, List.mem_filter] at hmem
    have hvis : (r.deleted == none) = true := hmem.2
    exact hdel (beq_iff_eq.mp hvis)
  · rw [qs_results_all_with_deleted]
    exact hr

/-- Witness for C2 at the one-row table holding a soft-deleted row. -/
theorem C2_witness :
    (⟨1, some 2, 3⟩ : Row) ∉
      qs_results (SafeDeleteManager.get_queryset {}) false [⟨1, some 2, 3⟩] ∧
    (⟨1, some 2, 3⟩ : Row) ∈
      qs_results (SafeDeleteManager.all_with_deleted {}) false [⟨1, some 2, 3⟩] :=
  C2_soft_deleted_default_hidden_all_with_deleted_visible
    [⟨1, some 2, 3⟩] ⟨1, some 2, 3⟩ (by decide) (by decide)

/-- C3: the default entry point `get_queryset` of the default manager uses
`DELETED_INVISIBLE` with no forced visibility, `all_with_deleted()` forces
`DELETED_VISIBLE` on the returned queryset, and `deleted_only()` forces
`DELETED_ONLY_VISIBLE` on the returned queryset. -/
theorem C3_three_entry_points :
    effective_visibility (SafeDeleteManager.get_queryset {}) =
      Visibility.DELETED_INVISIBLE ∧
    (SafeDeleteManager.get_queryset {})._safedelete_force_visibility = none ∧
    (∀ m : SafeDeleteManager,
      m.all_with_deleted._safedelete_force_visibility =
        some Visibility.DELETED_VISIBLE) ∧
    (∀ m : SafeDeleteManager,
      m.deleted_only._safedelete_force_visibility =
        some Visibility.DELETED_ONLY_VISIBLE) :=
  ⟨rfl, rfl, fun _ => rfl, fun _ => rfl⟩

/-- C4: `get_queryset()` copies the manager's `_safedelete_visibility` and
`_safedelete_visibility_field` onto the queryset, so the queryset's results
are exactly the rows passing the creating manager's visibility mode. -/
theorem C4_queryset_carries_manager_visibility (m : SafeDeleteManager) :
    m.get_queryset._safedelete_visibility = m._safedelete_visibility ∧
    m.get_queryset._safedelete_visibility_field =
      m._safedelete_visibility_field ∧
    ∀ by_pk db, qs_results m.get_queryset by_pk db =
      db.filter (row_visible m._safedelete_visibility by_pk) :=
  ⟨rfl, rfl, fun _ _ => rfl⟩

/-- C5: every manager's visibility mode is one of the four modes, and the
defaults are `DELETED_INVISIBLE` for `SafeDeleteManager`, `DELETED_VISIBLE`
for `SafeDeleteAllManager` and `DELETED_ONLY_VISIBLE` for
`SafeDeleteDeletedManager`. -/
theorem C5_manager_visibility_modes :
    (∀ m : SafeDeleteManager,
      m._safedelete_visibility = Visibility.DELETED_INVISIBLE ∨
      m._safedelete_visibility = Visibility.DELETED_VISIBLE ∨
      m._safedelete_visibility = Visibility.DELETED_ONLY_VISIBLE ∨
      m._safedelete_visibility = Visibility.DELETED_VISIBLE_BY_PK) ∧
    ({} : SafeDeleteManager)._safedelete_visibility =
      Visibility.DELETED_INVISIBLE ∧
    SafeDeleteAllManager._safedelete_visibility =
      Visibility.DELETED_VISIBLE ∧
    SafeDeleteDeletedManager._safedelete_visibility =
      Visibility.DELETED_ONLY_VISIBLE := by
  refine ⟨fun m => ?_, rfl, rfl, rfl⟩
  cases h : m._safedelete_visibility <;> simp

/-- C6: deleting a record whose model class has the `NO_DELETE` policy
fails with a policy-violation error and never produces an updated table. -/
theorem C6_no_delete_policy_rejected (obj : Row) (now : Nat) (db : List Row) :
    instance_delete DeletePolicy.NO_DELETE obj now db =
      Except.error SafeDeleteError.policy_violation ∧
    ∀ db', instance_delete DeletePolicy.NO_DELETE obj now db ≠
      Except.ok db' :=
  ⟨rfl, fun _ h => by simp [instance_delete] at h⟩

/-- C9: the forced visibility of `all_with_deleted()`/`deleted_only()`
overrides the manager's own mode — whatever the manager's
`_safedelete_visibility`, the effective visibility is `DELETED_VISIBLE`
resp. `DELETED_ONLY_VISIBLE` (so `deleted_only()` on `SafeDeleteAllManager`
still yields exactly the soft-deleted rows), while `all()` without a
`force_visibility` argument leaves the force unset and the queryset governed
by the manager's own mode. -/
theorem C9_forced_visibility_precedence (m : SafeDeleteManager) :
    effective_visibility m.all_with_deleted = Visibility.DELETED_VISIBLE ∧
    effective_visibility m.deleted_only = Visibility.DELETED_ONLY_VISIBLE ∧
    (m.all none)._safedelete_force_visibility = none ∧
    effective_visibility (m.all none) = m._safedelete_visibility ∧
    ∀ db r, r ∈ qs_results SafeDeleteAllManager.deleted_only false db ↔
      r ∈ db ∧ r.deleted ≠ none := by
  refine ⟨rfl, rfl, rfl, rfl, fun db r => ?_⟩
  rw [qs_results, List.mem_filter]
  constructor
  · rintro ⟨h1, h2⟩
    exact ⟨h1, bne_iff_ne.mp h2⟩
  · rintro ⟨h1, h2⟩
    exact ⟨h1, bne_iff_ne.mpr h2⟩

lemma row_set_deleted_none_eq {x : Row} (h : x.deleted = none) :
    ({ x with deleted := none } : Row) = x := by
  cases x
  simp only at h
  simp [h]

lemma save_undelete_roundtrip (obj : Row) (now : Nat) (db : List Row)
    (hmem : obj ∈ db) (halive : obj.deleted = none)
    (hnodup : (db.map Row.pk).Nodup) :
    instance_undelete obj (save_row { obj with deleted := some now } db) = db := by
  unfold instance_undelete save_row
  rw [List.map_map]
  refine Eq.trans (List.map_congr_left fun x hx => ?_) (List.map_id db)
  by_cases h : x.pk = obj.pk
  · have hxo : x = obj := pk_injOn db hnodup x hx obj hmem h
    subst hxo
    simp [Function.comp, row_set_deleted_none_eq halive]
  · simp [Function.comp, h]

/-- C1: `update_or_create` first runs the revival step and then delegates to
the base manager's `update_or_create`; when the delete policy is a
soft-delete policy, the model has unique fields and some soft-deleted row
matches the lookup kwargs, the revival step clears exactly the deleted
marker of the first such row; in every other case the revival step leaves
the table unchanged, so the call falls through directly to the base
semantics. -/
theorem C1_update_or_create_revives_before_delegating
    (base : List Row → List Row × Row) (m : SafeDeleteManager)
    (model : ModelClass) (kwargs : Row → Bool) (db : List Row)
    (hnodup : (db.map Row.pk).Nodup) :
    SafeDeleteManager.update_or_create base m model kwargs db =
      base (m.update_or_create_pre model kwargs db) ∧
    (∀ d, (SafeDeleteManager.get_soft_delete_policies.contains
        model.delete_policy && model.has_unique_fields) = true →
      m.find_soft_deleted kwargs db = some d →
      m.update_or_create_pre model kwargs db =
        db.map (fun x => if x.pk = d.pk then { x with deleted := none } else x)) ∧
    ((SafeDeleteManager.get_soft_delete_policies.contains
        model.delete_policy && model.has_unique_fields) = false →
      m.update_or_create_pre model kwargs db = db) ∧
    (m.find_soft_deleted kwargs db = none →
      m.update_or_create_pre model kwargs db = db) ∧
    (m.find_soft_deleted kwargs db = none ↔
      ∀ r ∈ db, ¬(kwargs r = true ∧ r.deleted ≠ none)) := by
  refine ⟨rfl, fun d hcond hfind => update_or_create_pre_found hnodup hcond hfind,
    fun hcond => update_or_create_pre_cond_false hcond,
    fun hfind => update_or_create_pre_find_none hfind, ?_⟩
  rw [SafeDeleteManager.find_soft_deleted, qs_results_all_with_deleted,
    List.head?_eq_none_iff, List.eq_nil_iff_forall_not_mem]
  constructor
  · intro hnil r hr hcontra
    exact hnil r (by
      rw [List.mem_filter, List.mem_filter]
      exact ⟨⟨hr, hcontra.1⟩, bne_iff_ne.mpr hcontra.2⟩)
  · intro h r hmem
    rw [List.mem_filter, List.mem_filter] at hmem
    exact h r hmem.1.1 ⟨hmem.1.2, bne_iff_ne.mp hmem.2⟩

/-- Witness for C1: on a two-row table whose second row is soft-deleted and
matches the lookup, the revival step clears exactly that marker. -/
theorem C1_witness :
    ({} : SafeDeleteManager).update_or_create_pre
      ⟨DeletePolicy.SOFT_DELETE, true⟩ (fun r => r.val == 20)
      [⟨1, none, 10⟩, ⟨2, some 5, 20⟩] = [⟨1, none, 10⟩, ⟨2, none, 20⟩] := by
  have h := C1_update_or_create_revives_before_delegating
    (fun t => (t, ⟨0, none, 0⟩)) {} ⟨DeletePolicy.SOFT_DELETE, true⟩
    (fun r => r.val == 20) [⟨1, none, 10⟩, ⟨2, some 5, 20⟩] (by decide)
  rw [h.2.1 ⟨2, some 5, 20⟩ (by decide) (by decide)]
  decide

/-- C7: for a soft-delete policy, `undelete()` after `delete()` restores the
table exactly, so the record is again included in default query results,
exactly as before the delete. -/
theorem C7_undelete_after_delete_restores (policy : DeletePolicy)
    (hpol : policy ∈ SafeDeleteManager.get_soft_delete_policies)
    (obj : Row) (now : Nat) (db : List Row)
    (hmem : obj ∈ db) (halive : obj.deleted = none)
    (hnodup : (db.map Row.pk).Nodup) :
    ∃ db', instance_delete policy obj now db = Except.ok db' ∧
      instance_undelete obj db' = db ∧
      obj ∈ qs_results (SafeDeleteManager.get_queryset {}) false
        (instance_undelete obj db') := by
  have hpol' : policy = DeletePolicy.SOFT_DELETE ∨
      policy = DeletePolicy.SOFT_DELETE_CASCADE := by
    simpa [SafeDeleteManager.get_soft_delete_policies] using hpol
  have key : instance_delete policy obj now db =
      Except.ok (save_row { obj with deleted := some now } db) := by
    rcases hpol' with h | h <;> subst h <;> rfl
  have hround := save_undelete_roundtrip obj now db hmem halive hnodup
  refine ⟨save_row { obj with deleted := some now } db, key, hround, ?_⟩
  rw [hround, qs_results, List.mem_filter]
  refine ⟨hmem, ?_⟩
  simp [row_visible, effective_visibility, SafeDeleteManager.get_queryset, halive]

/-- Witness for C7 at a one-row table: soft delete then undelete restores
the table and the row is visible by default again. -/
theorem C7_witness :
    ∃ db', instance_delete DeletePolicy.SOFT_DELETE ⟨1, none, 5⟩ 7
        [⟨1, none, 5⟩] = Except.ok db' ∧
      instance_undelete ⟨1, none, 5⟩ db' = [⟨1, none, 5⟩] ∧
      (⟨1, none, 5⟩ : Row) ∈ qs_results (SafeDeleteManager.get_queryset {})
        false (instance_undelete ⟨1, none, 5⟩ db') :=
  C7_undelete_after_delete_restores DeletePolicy.SOFT_DELETE (by decide)
    ⟨1, none, 5⟩ 7 [⟨1, none, 5⟩] (by decide) (by decide) (by decide)

/-- C8: uniqueness validation considers soft-deleted rows — a new value that
equals the unique field value of an existing soft-deleted row fails with a
validation error. -/
theorem C8_validate_unique_considers_soft_deleted (db : List Row) (r : Row)
    (v : Nat) (hmem : r ∈ db) (_hdel : r.deleted ≠ none) (hval : r.val = v) :
    validate_unique v db = Except.error SafeDeleteError.validation_error := by
  unfold validate_unique
  have h : db.any (fun x => x.val == v) = true :=
    List.any_eq_true.mpr ⟨r, hmem, by simp [hval]⟩
  rw [if_pos h]

/-- Witness for C8: validating value 9 against a table holding a
soft-deleted row with value 9 fails. -/
theorem C8_witness :
    validate_unique 9 [⟨1, some 2, 9⟩] =
      Except.error SafeDeleteError.validation_error :=
  C8_validate_unique_considers_soft_deleted [⟨1, some 2, 9⟩] ⟨1, some 2, 9⟩ 9
    (by decide) (by decide) (by decide)

/-- C10: the revival step revives at most one row — when a first matching
soft-deleted row exists, the deleted markers after the step are those before
it except that the first match's marker is cleared; with a non-soft policy
or no unique fields, no marker changes before delegation. -/
theorem C10_revives_at_most_one_row (m : SafeDeleteManager)
    (model : ModelClass) (kwargs : Row → Bool) (db : List Row)
    (hnodup : (db.map Row.pk).Nodup) :
    (∀ d, (SafeDeleteManager.get_soft_delete_policies.contains
        model.delete_policy && model.has_unique_fields) = true →
      m.find_soft_deleted kwargs db = some d →
      (m.update_or_create_pre model kwargs db).map Row.deleted =
        db.map (fun x => if x.pk = d.pk then none else x.deleted)) ∧
    ((SafeDeleteManager.get_soft_delete_policies.contains
        model.delete_policy && model.has_unique_fields) = false →
      (m.update_or_create_pre model kwargs db).map Row.deleted =
        db.map Row.deleted) := by
  constructor
  · intro d hcond hfind
    rw [update_or_create_pre_found hnodup hcond hfind, List.map_map]
    apply List.map_congr_left
    intro x hx
    by_cases h : x.pk = d.pk <;> simp [Function.comp, h]
  · intro hcond
    rw [update_or_create_pre_cond_false hcond]

/-- Witness for C10: two soft-deleted rows match the lookup; only the first
one's marker is cleared. -/
theorem C10_witness :
    (({} : SafeDeleteManager).update_or_create_pre
        ⟨DeletePolicy.SOFT_DELETE_CASCADE, true⟩ (fun r => r.val == 20)
        [⟨1, some 3, 20⟩, ⟨2, some 4, 20⟩]).map Row.deleted =
      [none, some 4] := by
  have h := C10_revives_at_most_one_row {}
    ⟨DeletePolicy.SOFT_DELETE_CASCADE, true⟩ (fun r => r.val == 20)
    [⟨1, some 3, 20⟩, ⟨2, some 4, 20⟩] (by decide)
  rw [h.1 ⟨1, some 3, 20⟩ (by decide) (by decide)]
  decide
